import Mathlib

/-!
Shallow embedding of the `restricion` Odoo module: location-based stock
access restrictions on users, quants, moves and sale orders.

The location table is a `List Loc`; records reference their parent through
`location_id`.  Users carry the three fields the module adds to `res.users`.
Each ORM override from the source is embedded as a function taking the
relevant tables and the acting user; raising `AccessError` is modelled by
`Except.error` carrying the message string.
-/

namespace Restricion

/-- A `stock.location` record: id, optional parent (`location_id`),
usage kind, short name and display name. -/
structure Loc where
  id : Nat
  location_id : Option Nat
  usage : String
  name : String
  display_name : String
deriving DecidableEq

/-- The fields the module adds to `res.users`. -/
structure User where
  restrict_stock_access : Bool
  allowed_location_ids : List Nat
  allowed_warehouse_ids : List Nat
deriving DecidableEq

/-- A `stock.quant` record: id and the location holding the stock. -/
structure Quant where
  id : Nat
  location_id : Nat
deriving DecidableEq

/-- The values dictionary passed to quant `create`/`write`; `none` models a
missing `location_id` key. -/
structure QuantVals where
  location_id : Option Nat
deriving DecidableEq

/-- A `stock.move` record: source and destination locations. -/
structure Move where
  location_id : Nat
  location_dest_id : Nat
deriving DecidableEq

/-- A `stock.warehouse` record. -/
structure Warehouse where
  id : Nat
  name : String
deriving DecidableEq

/-- Record lookup by id (`browse`): first record of the table with that id. -/
def findLoc (db : List Loc) (i : Nat) : Option Loc :=
  db.find? (fun l => l.id == i)

/-- Display name of a location id, as `name_get()[0][1]` returns it. -/
def locDisplayName (db : List Loc) (i : Nat) : String :=
  match findLoc db i with
  | some l => l.display_name
  | none => ""

/-- Short `name` of a location id. -/
def locName (db : List Loc) (i : Nat) : String :=
  match findLoc db i with
  | some l => l.name
  | none => ""

/-- Name of a warehouse id. -/
def whName (whdb : List Warehouse) (i : Nat) : String :=
  match whdb.find? (fun w => w.id == i) with
  | some w => w.name
  | none => ""

/-- Embedding of `ResUsers._compute_has_stock_restriction`: the flag is on and the set of
directly-assigned locations is non-empty. -/
def has_stock_restriction (u : User) : Bool :=
  u.restrict_stock_access && !u.allowed_location_ids.isEmpty

/-- Semantics of the Odoo domain operator `('id', 'child_of', roots)`:
`i` is one of `roots`, or its parent chain reaches one of `roots`.  The
walk is fuel-bounded; the callers pass `db.length + 1`, enough fuel for any
acyclic hierarchy stored in `db`. -/
def isChildOf (db : List Loc) : Nat → List Nat → Nat → Bool
  | 0, _, _ => false
  | fuel + 1, roots, i =>
    roots.contains i ||
      match findLoc db i with
      | none => false
      | some l =>
        match l.location_id with
        | none => false
        | some p => isChildOf db fuel roots p

/-- Embedding of `ResUsers.get_effective_location_ids`: ids of the locations in the
`child_of` closure of the assigned locations whose usage is `internal` or
`transit`; empty when the flag is off or no location is assigned. -/
def get_effective_location_ids (db : List Loc) (u : User) : List Nat :=
  if !u.restrict_stock_access || u.allowed_location_ids.isEmpty then []
  else
    (db.filter (fun l =>
      isChildOf db (db.length + 1) u.allowed_location_ids l.id &&
      (l.usage == "internal" || l.usage == "transit"))).map (fun l => l.id)

/-- The `while current and current.id not in seen` loop of
`get_all_location_ids_with_access`, for one starting record: walks up the
parent chain, stopping at a record already in `seen`, and returns the new
`seen` list together with the ids collected on this walk. -/
def ancWalk (db : List Loc) : Nat → Option Loc → List Nat → List Nat × List Nat
  | _, none, seen => (seen, [])
  | 0, some _, seen => (seen, [])
  | fuel + 1, some l, seen =>
    if seen.contains l.id then (seen, [])
    else
      let res := ancWalk db fuel (l.location_id.bind (findLoc db)) (l.id :: seen)
      (res.1, l.id :: res.2)

/-- The `for loc in self.allowed_location_ids` loop: ancestor ids collected
over all assigned locations, sharing one `seen` set. -/
def ancestorIds (db : List Loc) (u : User) : List Nat :=
  (u.allowed_location_ids.foldl
    (fun acc aid =>
      let res := ancWalk db (db.length + 1) (findLoc db aid) acc.1
      (res.1, acc.2 ++ res.2))
    ([], [])).2

/-- The `technical_locations` search domain:
`usage = view ∨ usage = transit ∨ usage = inventory ∨ usage not in [internal]`. -/
def technical_location_ids (db : List Loc) : List Nat :=
  (db.filter (fun l =>
    l.usage == "view" || l.usage == "transit" || l.usage == "inventory" ||
    !(l.usage == "internal"))).map (fun l => l.id)

/-- Embedding of `ResUsers.get_all_location_ids_with_access`: effective ids, ancestors of
the assigned locations, and technical locations, duplicates removed
(`list(set(...))`). -/
def get_all_location_ids_with_access (db : List Loc) (u : User) : List Nat :=
  if !has_stock_restriction u then []
  else
    (get_effective_location_ids db u ++ ancestorIds db u ++
      technical_location_ids db).dedup

/-- Embedding of `ResUsers.check_location_access`. -/
def check_location_access (su : Bool) (db : List Loc) (u : User)
    (location_id : Nat) (operation : String) : Bool :=
  if !has_stock_restriction u || su then true
  else if operation == "read" then
    (get_all_location_ids_with_access db u).contains location_id
  else
    (get_effective_location_ids db u).contains location_id

/-- Embedding of `StockLocation._search`: for a restricted non-superuser, when the visible
set is non-empty the domain is conjoined with `('id', 'in', allowed_ids)`;
`pred` is the caller's original domain. -/
def StockLocation_search (su : Bool) (db : List Loc) (u : User)
    (pred : Loc → Bool) : List Loc :=
  if !su && has_stock_restriction u then
    let allowed := get_all_location_ids_with_access db u
    if !allowed.isEmpty then
      db.filter (fun l => pred l && allowed.contains l.id)
    else
      db.filter pred
  else
    db.filter pred

/-- Embedding of `StockLocation.check_access_rule`: for a restricted non-superuser reading
a non-empty set of ids that are all visible, access is granted without the
standard check; otherwise the standard result `superResult` applies. -/
def StockLocation_check_access_rule (su : Bool) (db : List Loc) (u : User)
    (operation : String) (ids : List Nat)
    (superResult : Except String Unit) : Except String Unit :=
  if !su && has_stock_restriction u && operation == "read" then
    let allowed := get_all_location_ids_with_access db u
    if !ids.isEmpty && ids.all (fun i => allowed.contains i) then
      Except.ok ()
    else
      superResult
  else
    superResult

/-- Embedding of `StockQuant._search`: for a restricted non-superuser the domain is
conjoined with `('location_id', 'in', effective)` when the effective set is
non-empty, and with the unsatisfiable `('id', '=', 0)` when it is empty. -/
def StockQuant_search (su : Bool) (db : List Loc) (u : User)
    (qdb : List Quant) (pred : Quant → Bool) : List Quant :=
  if !su && has_stock_restriction u then
    let allowed := get_effective_location_ids db u
    if !allowed.isEmpty then
      qdb.filter (fun q => pred q && allowed.contains q.location_id)
    else
      qdb.filter (fun q => pred q && q.id == 0)
  else
    qdb.filter pred

/-- Truthiness of `vals.get('location_id')`: a present, non-zero id. -/
def truthyLoc : Option Nat → Bool
  | none => false
  | some n => !(n == 0)

/-- Embedding of `StockQuant.create`: for a restricted non-superuser, the first values
dictionary carrying a truthy `location_id` outside the effective set raises
`AccessError`; otherwise the list is delegated to the standard `create`. -/
def StockQuant_create (su : Bool) (db : List Loc) (u : User)
    (vals_list : List QuantVals) : Except String (List QuantVals) :=
  if !su && has_stock_restriction u then
    let allowed := get_effective_location_ids db u
    match vals_list.find? (fun v =>
        truthyLoc v.location_id && !(allowed.contains (v.location_id.getD 0))) with
    | some v =>
      Except.error ("Restricción: No puedes crear inventario en la ubicación "
        ++ locDisplayName db (v.location_id.getD 0))
    | none => Except.ok vals_list
  else
    Except.ok vals_list

/-- The `for quant in self` loop of `write` (and of
`action_apply_inventory`): the first quant sitting in a non-effective
location produces the error message built by `mkMsg` from its location. -/
def quantsLocCheck (quants : List Quant) (allowed : List Nat)
    (mkMsg : Nat → String) : Except String Unit :=
  match quants.find? (fun q => !(allowed.contains q.location_id)) with
  | some q => Except.error (mkMsg q.location_id)
  | none => Except.ok ()

/-- Embedding of `StockQuant.write`: for a restricted non-superuser, a `location_id` key
in `vals` outside the effective set raises a fixed message; then each quant
being written must already sit in an effective location. -/
def StockQuant_write (su : Bool) (db : List Loc) (u : User)
    (quants : List Quant) (vals : QuantVals) : Except String Unit :=
  if !su && has_stock_restriction u then
    let allowed := get_effective_location_ids db u
    match vals.location_id with
    | some n =>
      if !(allowed.contains n) then
        Except.error
          "Restricción: No puedes mover inventario hacia una ubicación no permitida."
      else
        quantsLocCheck quants allowed
          (fun i => "Restricción: No tienes permiso para modificar inventario en "
            ++ locDisplayName db i)
    | none =>
      quantsLocCheck quants allowed
        (fun i => "Restricción: No tienes permiso para modificar inventario en "
          ++ locDisplayName db i)
  else
    Except.ok ()

/-- Embedding of `StockQuant.action_apply_inventory`: each quant must sit in an effective
location. -/
def StockQuant_action_apply_inventory (su : Bool) (db : List Loc) (u : User)
    (quants : List Quant) : Except String Unit :=
  if !su && has_stock_restriction u then
    let allowed := get_effective_location_ids db u
    quantsLocCheck quants allowed
      (fun i => "No tienes permiso para ajustar el inventario en: "
        ++ locDisplayName db i)
  else
    Except.ok ()

/-- Embedding of `StockMove.check_access_rule`: when the standard rule raises
`AccessError` (`superRaises`), a restricted user is let through as long as
every move has its source or its destination in the effective set; an
unrestricted user gets the original error back. -/
def StockMove_check_access_rule (db : List Loc) (u : User)
    (superRaises : Bool) (moves : List Move) : Except String Unit :=
  if !superRaises then Except.ok ()
  else if !has_stock_restriction u then Except.error "AccessError"
  else
    let allowed := get_effective_location_ids db u
    match moves.find? (fun m =>
        !(allowed.contains m.location_id || allowed.contains m.location_dest_id)) with
    | some m =>
      Except.error
        ("No tienes permiso para procesar movimientos que no involucren tus ubicaciones permitidas.\nMovimiento: "
          ++ locName db m.location_id ++ " -> " ++ locName db m.location_dest_id)
    | none => Except.ok ()

/-- Embedding of `SaleOrder.default_get`, restricted to the `warehouse_id` entry: `std`
is the value the standard `default_get` produced; a restricted user with
allowed warehouses gets the first of them instead. -/
def SaleOrder_default_warehouse (u : User) (fields_list : List String)
    (std : Option Nat) : Option Nat :=
  if fields_list.contains "warehouse_id" then
    if has_stock_restriction u && !u.allowed_warehouse_ids.isEmpty then
      some (u.allowed_warehouse_ids.headD 0)
    else std
  else std

/-- Embedding of `', '.join(...)` over a list of names. -/
def joinComma : List String → String
  | [] => ""
  | [s] => s
  | s :: rest => s ++ ", " ++ joinComma rest

/-- Embedding of `SaleOrder.action_confirm`: a restricted non-superuser with allowed
warehouses may only confirm an order whose warehouse is among them. -/
def SaleOrder_action_confirm (su : Bool) (whdb : List Warehouse) (u : User)
    (warehouse_id : Nat) : Except String Unit :=
  if !su && has_stock_restriction u && !u.allowed_warehouse_ids.isEmpty then
    if !(u.allowed_warehouse_ids.contains warehouse_id) then
      Except.error ("Error de Seguridad: Intentas confirmar una venta desde el almacén '"
        ++ whName whdb warehouse_id ++ "', pero solo tienes acceso a: "
        ++ joinComma (u.allowed_warehouse_ids.map (whName whdb)) ++ ".")
    else Except.ok ()
  else Except.ok ()

/-- A message `msg` names a string `s` when `s` occurs inside `msg`. -/
def Mentions (msg s : String) : Prop :=
  s.toList <:+: msg.toList

instance decMentions (msg s : String) : Decidable (Mentions msg s) :=
  inferInstanceAs (Decidable (s.toList <:+: msg.toList))

/-- Acyclicity certificate for the location hierarchy: `rank` strictly
decreases from every record to its parent. -/
def wfRank (db : List Loc) (rank : Nat → Nat) : Bool :=
  db.all (fun l =>
    match l.location_id with
    | none => true
    | some p => decide (rank p < rank l.id))

/-- The certificate's ranks stay below the fuel `db.length + 1` the code's
walks use. -/
def rankBound (db : List Loc) (rank : Nat → Nat) : Bool :=
  db.all (fun l => decide (rank l.id < db.length + 1))

/-- Referential integrity: every parent pointer of a record of `db`
resolves inside `db`. -/
def refIntact (db : List Loc) : Bool :=
  db.all (fun l =>
    match l.location_id with
    | none => true
    | some p => (findLoc db p).isSome)

/-- Specification-side reading of the `child_of` domain operator: `i` is in
the closure when it is a root or its parent is. -/
inductive ChildOfR (db : List Loc) (roots : List Nat) : Nat → Prop
  | base (i : Nat) : i ∈ roots → ChildOfR db roots i
  | step (i p : Nat) (l : Loc) : findLoc db i = some l → l.location_id = some p →
      ChildOfR db roots p → ChildOfR db roots i

/-- Upward reachability along parent pointers: `UpReach db a x` says the
parent chain starting at `a` passes through `x` (reflexively). -/
inductive UpReach (db : List Loc) : Nat → Nat → Prop
  | refl (i : Nat) : UpReach db i i
  | tail (i j p : Nat) (l : Loc) : UpReach db i j → findLoc db j = some l →
      l.location_id = some p → UpReach db i p

/-- Specification-side reading of the ancestors component of the visible
set: every assigned location together with everything on its parent chain. -/
inductive AncestorOfAssigned (db : List Loc) (assigned : List Nat) : Nat → Prop
  | self (a : Nat) : a ∈ assigned → AncestorOfAssigned db assigned a
  | up (i p : Nat) (l : Loc) : AncestorOfAssigned db assigned i →
      findLoc db i = some l → l.location_id = some p →
      AncestorOfAssigned db assigned p

/-- A set of ids closed under taking parents: the invariant the shared
`seen` set of the ancestor loop maintains between two walks. -/
def Closed (db : List Loc) (S : List Nat) : Prop :=
  ∀ x ∈ S, ∀ l, findLoc db x = some l → ∀ p, l.location_id = some p → p ∈ S

/-- Mid-walk weakening of `Closed`: the one pending parent is exactly the
record the walk is about to visit. -/
def ClosedUpto (db : List Loc) (cur : Option Loc) (S : List Nat) : Prop :=
  ∀ x ∈ S, ∀ l, findLoc db x = some l → ∀ p, l.location_id = some p →
    p ∈ S ∨ cur = findLoc db p

/-- Discriminator for `Except` results, used to compare outcomes. -/
def isOkE {α : Type} : Except String α → Bool
  | Except.ok _ => true
  | Except.error _ => false

/-- Sample location table used by the witnesses: a warehouse view node
above two internal locations, plus a customer and an inventory-adjustment
location. -/
def dbW : List Loc := [
  ⟨1, none, "view", "WH", "WH"⟩,
  ⟨2, some 1, "internal", "Stock", "WH/Stock"⟩,
  ⟨3, some 2, "internal", "Shelf", "WH/Stock/Shelf"⟩,
  ⟨4, none, "customer", "Customers", "Partners/Customers"⟩,
  ⟨5, none, "inventory", "Scrap", "Virtual/Scrap"⟩]

/-- Sample warehouses used by the witnesses. -/
def whW : List Warehouse := [⟨10, "Central"⟩, ⟨20, "Norte"⟩]

/-- Sample restricted user: flag on, assigned to location 2, warehouse 10. -/
def uW : User := ⟨true, [2], [10]⟩

/-- Same user as `uW` except for the allowed warehouses. -/
def uW' : User := ⟨true, [2], [20]⟩

/-- Sample unrestricted user: flag off. -/
def uOff : User := ⟨false, [2], [10]⟩

/-- Restricted user whose assigned location (5) has no internal or transit
descendant, so the effective set is empty. -/
def uEmptyEff : User := ⟨true, [5], []⟩

end Restricion

namespace Restricion

theorem findLoc_mem {db : List Loc} {i : Nat} {l : Loc}
    (h : findLoc db i = some l) : l ∈ db :=
  List.mem_of_find?_eq_some h

theorem findLoc_id {db : List Loc} {i : Nat} {l : Loc}
    (h : findLoc db i = some l) : l.id = i := by
  have := List.find?_some h
  simpa using this

theorem wfRank_spec {db : List Loc} {rank : Nat → Nat} (h : wfRank db rank = true) :
    ∀ l ∈ db, ∀ p, l.location_id = some p → rank p < rank l.id := by
  intro l hl p hp
  have h' := List.all_eq_true.mp h l hl
  rw [hp] at h'
  exact of_decide_eq_true h'

theorem rankBound_spec {db : List Loc} {rank : Nat → Nat}
    (h : rankBound db rank = true) :
    ∀ l ∈ db, rank l.id < db.length + 1 := by
  intro l hl
  exact of_decide_eq_true (List.all_eq_true.mp h l hl)

theorem refIntact_spec {db : List Loc} (h : refIntact db = true) :
    ∀ l ∈ db, ∀ p, l.location_id = some p → ∃ l', findLoc db p = some l' := by
  intro l hl p hp
  have h' := List.all_eq_true.mp h l hl
  rw [hp] at h'
  exact Option.isSome_iff_exists.mp h'

theorem isChildOf_sound {db : List Loc} {roots : List Nat} :
    ∀ fuel i, isChildOf db fuel roots i = true → ChildOfR db roots i := by
  intro fuel
  induction fuel with
  | zero => intro i h; simp [isChildOf] at h
  | succ n ih =>
    intro i h
    rw [isChildOf] at h
    rcases Bool.or_eq_true_iff.mp h with h | h
    · exact ChildOfR.base i (List.elem_iff.mp h)
    · cases hf : findLoc db i with
      | none => rw [hf] at h; simp at h
      | some l =>
        rw [hf] at h
        dsimp only at h
        cases hp : l.location_id with
        | none => rw [hp] at h; simp at h
        | some p =>
          rw [hp] at h
          dsimp only at h
          exact ChildOfR.step i p l hf hp (ih p h)

theorem isChildOf_complete {db : List Loc} {roots : List Nat} {rank : Nat → Nat}
    (hw : wfRank db rank = true) :
    ∀ i, ChildOfR db roots i → ∀ fuel, rank i < fuel →
      isChildOf db fuel roots i = true := by
  intro i h
  induction h with
  | base j hj =>
    intro fuel hf
    obtain ⟨f, rfl⟩ : ∃ f, fuel = f + 1 := ⟨fuel - 1, by omega⟩
    rw [isChildOf, Bool.or_eq_true_iff]
    exact Or.inl (List.elem_iff.mpr hj)
  | step j p l hfind hloc _ ih =>
    intro fuel hf
    obtain ⟨f, rfl⟩ : ∃ f, fuel = f + 1 := ⟨fuel - 1, by omega⟩
    rw [isChildOf, Bool.or_eq_true_iff]
    refine Or.inr ?_
    rw [hfind]
    dsimp only
    rw [hloc]
    dsimp only
    apply ih
    have hlt := wfRank_spec hw l (findLoc_mem hfind) p hloc
    rw [findLoc_id hfind] at hlt
    omega

/-- Claim C1: For a user with the restriction flag on and a non-empty set of
directly-assigned locations, `get_effective_location_ids` returns exactly
the ids of the locations in the `child_of` closure of the assigned
locations whose usage is `internal` or `transit` — assuming an acyclic
location hierarchy certified by `rank`. -/
theorem C1_effective_ids_exact (db : List Loc) (u : User) (rank : Nat → Nat)
    (hres : u.restrict_stock_access = true)
    (hne : u.allowed_location_ids ≠ [])
    (hw : wfRank db rank = true)
    (hb : rankBound db rank = true) :
    ∀ x, x ∈ get_effective_location_ids db u ↔
      ∃ l ∈ db, l.id = x ∧ ChildOfR db u.allowed_location_ids x ∧
        (l.usage = "internal" ∨ l.usage = "transit") := by
  intro x
  have hemp : u.allowed_location_ids.isEmpty = false := by
    cases h : u.allowed_location_ids with
    | nil => exact absurd h hne
    | cons a as => rfl
  rw [get_effective_location_ids, hres, hemp]
  simp only [Bool.not_true, Bool.false_or, Bool.false_eq_true, if_false]
  constructor
  · intro hx
    rw [List.mem_map] at hx
    obtain ⟨l, hl, rfl⟩ := hx
    rw [List.mem_filter] at hl
    obtain ⟨hmem, hpred⟩ := hl
    rw [Bool.and_eq_true] at hpred
    obtain ⟨hchild, husage⟩ := hpred
    refine ⟨l, hmem, rfl, isChildOf_sound _ _ hchild, ?_⟩
    rcases Bool.or_eq_true_iff.mp husage with h | h
    · exact Or.inl (by simpa using h)
    · exact Or.inr (by simpa using h)
  · rintro ⟨l, hmem, rfl, hchild, husage⟩
    rw [List.mem_map]
    refine ⟨l, ?_, rfl⟩
    rw [List.mem_filter]
    refine ⟨hmem, ?_⟩
    rw [Bool.and_eq_true]
    constructor
    · exact isChildOf_complete hw _ hchild _ (rankBound_spec hb l hmem)
    · rcases husage with h | h
      · exact Bool.or_eq_true_iff.mpr (Or.inl (by simp [h]))
      · exact Bool.or_eq_true_iff.mpr (Or.inr (by simp [h]))

/-- Witness for C1 at `dbW`/`uW`: the hypotheses hold with `rank = id`, and
location 3 (an internal descendant of the assigned location 2) is in the
effective set with the promised characterization. -/
theorem C1_effective_ids_exact_witness :
    (uW.restrict_stock_access = true ∧ uW.allowed_location_ids ≠ [] ∧
      wfRank dbW (fun i => i) = true ∧ rankBound dbW (fun i => i) = true) ∧
    (3 ∈ get_effective_location_ids dbW uW ↔
      ∃ l ∈ dbW, l.id = 3 ∧ ChildOfR dbW uW.allowed_location_ids 3 ∧
        (l.usage = "internal" ∨ l.usage = "transit")) :=
  ⟨⟨by decide, by decide, by decide, by decide⟩,
    C1_effective_ids_exact dbW uW (fun i => i) (by decide) (by decide)
      (by decide) (by decide) 3⟩

theorem upReach_trans {db : List Loc} {i j k : Nat}
    (h₁ : UpReach db i j) (h₂ : UpReach db j k) : UpReach db i k := by
  induction h₂ with
  | refl => exact h₁
  | tail j' p l _ hfind hloc ih => exact UpReach.tail _ _ _ _ ih hfind hloc

theorem upReach_head {db : List Loc} {i x : Nat} (h : UpReach db i x) :
    x = i ∨ ∃ l p, findLoc db i = some l ∧ l.location_id = some p ∧
      UpReach db p x := by
  induction h with
  | refl => exact Or.inl rfl
  | tail j p l hij hfind hloc ih =>
    rcases ih with rfl | ⟨l₀, p₀, hf₀, hl₀, hup₀⟩
    · exact Or.inr ⟨l, p, hfind, hloc, UpReach.refl p⟩
    · exact Or.inr ⟨l₀, p₀, hf₀, hl₀, UpReach.tail _ _ _ _ hup₀ hfind hloc⟩

theorem chain_in_closed {db : List Loc} {S : List Nat}
    (hc : Closed db S) {i x : Nat} (hi : i ∈ S) (h : UpReach db i x) :
    x ∈ S := by
  induction h with
  | refl => exact hi
  | tail j p l _ hfind hloc ih => exact hc j ih l hfind p hloc

theorem ancWalk_fst {db : List Loc} :
    ∀ fuel cur seen,
      (ancWalk db fuel cur seen).1 = (ancWalk db fuel cur seen).2.reverse ++ seen := by
  intro fuel
  induction fuel with
  | zero => intro cur seen; cases cur <;> simp [ancWalk]
  | succ n ih =>
    intro cur seen
    cases cur with
    | none => simp [ancWalk]
    | some l =>
      by_cases h : l.id ∈ seen <;>
        simp [ancWalk, h, ih, List.append_assoc]

theorem ancWalk_none {db : List Loc} {fuel : Nat} {seen : List Nat} :
    ancWalk db fuel none seen = (seen, []) := by
  cases fuel <;> simp [ancWalk]

theorem bind_findLoc_eq_some {db : List Loc} {o : Option Nat} {l' : Loc}
    (h : o.bind (findLoc db) = some l') :
    ∃ p, o = some p ∧ findLoc db p = some l' := by
  cases o with
  | none => simp at h
  | some p => exact ⟨p, rfl, by simpa using h⟩

theorem closedUpto_none {db : List Loc} {seen : List Nat}
    (href : refIntact db = true) (h : ClosedUpto db none seen) :
    Closed db seen := by
  intro x hx l hf p hp
  rcases h x hx l hf p hp with h' | h'
  · exact h'
  · exfalso
    obtain ⟨l', hl'⟩ := refIntact_spec href l (findLoc_mem hf) p hp
    rw [← h'] at hl'
    exact Option.noConfusion hl'

theorem closedUpto_stop {db : List Loc} {seen : List Nat} {l : Loc}
    (hmem : l.id ∈ seen) (h : ClosedUpto db (some l) seen) :
    Closed db seen := by
  intro x hx lx hf p hp
  rcases h x hx lx hf p hp with h' | h'
  · exact h'
  · rw [← findLoc_id h'.symm]
    exact hmem

/-- Behaviour of one ancestor walk under the mid-walk closure invariant:
with enough fuel it adds to `seen` exactly the parent chain of the record
it starts from, and restores full parent-closure of `seen`. -/
theorem ancWalk_main {db : List Loc} {rank : Nat → Nat}
    (hw : wfRank db rank = true) (href : refIntact db = true) :
    ∀ (fuel : Nat) (cur : Option Loc) (seen : List Nat),
      (∀ l, cur = some l → findLoc db l.id = some l) →
      (∀ l, cur = some l → rank l.id < fuel) →
      ClosedUpto db cur seen →
      (∀ x, x ∈ (ancWalk db fuel cur seen).1 ↔
         x ∈ seen ∨ ∃ l, cur = some l ∧ UpReach db l.id x) ∧
      Closed db (ancWalk db fuel cur seen).1 := by
  intro fuel
  induction fuel with
  | zero =>
    intro cur seen hcur hfuel hclosed
    cases cur with
    | none =>
      rw [ancWalk_none]
      refine ⟨fun x => ?_, closedUpto_none href hclosed⟩
      simp
    | some l => exact absurd (hfuel l rfl) (by omega)
  | succ n ih =>
    intro cur seen hcur hfuel hclosed
    cases cur with
    | none =>
      rw [ancWalk_none]
      refine ⟨fun x => ?_, closedUpto_none href hclosed⟩
      simp
    | some l =>
      have hfl : findLoc db l.id = some l := hcur l rfl
      have hlmem : l ∈ db := findLoc_mem hfl
      by_cases hseen : l.id ∈ seen
      · have hre : ancWalk db (n + 1) (some l) seen = (seen, []) := by
          simp [ancWalk, hseen]
        have hcl : Closed db seen := closedUpto_stop hseen hclosed
        rw [hre]
        refine ⟨fun x => ?_, hcl⟩
        constructor
        · exact fun hx => Or.inl hx
        · rintro (hx | ⟨l', hl', hup⟩)
          · exact hx
          · cases hl'
            exact chain_in_closed hcl hseen hup
      · set next := l.location_id.bind (findLoc db) with hnext
        have hre : ancWalk db (n + 1) (some l) seen =
            ((ancWalk db n next (l.id :: seen)).1,
             l.id :: (ancWalk db n next (l.id :: seen)).2) := by
          simp [ancWalk, hseen, hnext]
        have hcur' : ∀ l', next = some l' → findLoc db l'.id = some l' := by
          intro l' h'
          obtain ⟨p, _, hfp⟩ := bind_findLoc_eq_some (hnext ▸ h')
          rw [findLoc_id hfp]
          exact hfp
        have hfuel' : ∀ l', next = some l' → rank l'.id < n := by
          intro l' h'
          obtain ⟨p, hp, hfp⟩ := bind_findLoc_eq_some (hnext ▸ h')
          have h1 := wfRank_spec hw l hlmem p hp
          have h2 := hfuel l rfl
          rw [findLoc_id hfp]
          omega
        have hclosed' : ClosedUpto db next (l.id :: seen) := by
          intro x hx lx hf p hp
          rcases List.mem_cons.mp hx with rfl | hx'
          · have hlx : lx = l := by
              rw [hfl] at hf
              exact (Option.some.inj hf).symm
            subst hlx
            right
            rw [hnext, hp]
            rfl
          · rcases hclosed x hx' lx hf p hp with h' | h'
            · exact Or.inl (List.mem_cons_of_mem _ h')
            · left
              rw [← findLoc_id h'.symm]
              exact List.mem_cons_self _ _
        obtain ⟨iha, ihc⟩ := ih next (l.id :: seen) hcur' hfuel' hclosed'
        rw [hre]
        refine ⟨fun x => ?_, ihc⟩
        show x ∈ (ancWalk db n next (l.id :: seen)).1 ↔ _
        rw [iha x]
        constructor
        · rintro (hx | ⟨l', hnx, hup⟩)
          · rcases List.mem_cons.mp hx with rfl | hx'
            · exact Or.inr ⟨l, rfl, UpReach.refl _⟩
            · exact Or.inl hx'
          · obtain ⟨p, hp, hfp⟩ := bind_findLoc_eq_some (hnext ▸ hnx)
            refine Or.inr ⟨l, rfl, ?_⟩
            have hstep : UpReach db l.id p :=
              UpReach.tail _ _ _ _ (UpReach.refl l.id) hfl hp
            have hup' : UpReach db p x := by
              rw [← findLoc_id hfp]
              exact hup
            exact upReach_trans hstep hup'
        · rintro (hx | ⟨l', hl', hup⟩)
          · exact Or.inl (List.mem_cons_of_mem _ hx)
          · obtain rfl : l = l' := Option.some.inj hl'
            rcases upReach_head hup with rfl | ⟨l₀, p₀, hf₀, hp₀, hup₀⟩
            · exact Or.inl (List.mem_cons_self _ _)
            · obtain rfl : l = l₀ := by
                rw [hfl] at hf₀
                exact Option.some.inj hf₀
              obtain ⟨l₂, hl₂⟩ := refIntact_spec href l hlmem p₀ hp₀
              refine Or.inr ⟨l₂, ?_, ?_⟩
              · rw [hnext, hp₀]
                exact hl₂
              · rw [findLoc_id hl₂]
                exact hup₀

/-- Behaviour of the whole ancestor loop: starting from a parent-closed
accumulator whose collected list matches its `seen` list, it collects
exactly the parent chains of the processed assigned locations. -/
theorem ancFold_main {db : List Loc} {rank : Nat → Nat}
    (hw : wfRank db rank = true) (href : refIntact db = true)
    (hb : rankBound db rank = true) :
    ∀ (as : List Nat) (acc : List Nat × List Nat),
      Closed db acc.1 →
      (∀ x, x ∈ acc.2 ↔ x ∈ acc.1) →
      Closed db (as.foldl (fun acc aid =>
          let res := ancWalk db (db.length + 1) (findLoc db aid) acc.1
          (res.1, acc.2 ++ res.2)) acc).1 ∧
      (∀ x, x ∈ (as.foldl (fun acc aid =>
          let res := ancWalk db (db.length + 1) (findLoc db aid) acc.1
          (res.1, acc.2 ++ res.2)) acc).2 ↔
        x ∈ (as.foldl (fun acc aid =>
          let res := ancWalk db (db.length + 1) (findLoc db aid) acc.1
          (res.1, acc.2 ++ res.2)) acc).1) ∧
      (∀ x, x ∈ (as.foldl (fun acc aid =>
          let res := ancWalk db (db.length + 1) (findLoc db aid) acc.1
          (res.1, acc.2 ++ res.2)) acc).1 ↔
        x ∈ acc.1 ∨ ∃ a ∈ as, ∃ l, findLoc db a = some l ∧ UpReach db l.id x) := by
  intro as
  induction as with
  | nil =>
    intro acc hc hm
    refine ⟨hc, hm, fun x => ?_⟩
    simp [List.foldl_nil]
  | cons a as ih =>
    intro acc hc hm
    rw [List.foldl_cons]
    have hcur : ∀ l, findLoc db a = some l → findLoc db l.id = some l := by
      intro l h'
      rw [findLoc_id h']
      exact h'
    have hfl : ∀ l, findLoc db a = some l → rank l.id < db.length + 1 := by
      intro l h'
      exact rankBound_spec hb l (findLoc_mem h')
    have hcl : ClosedUpto db (findLoc db a) acc.1 := by
      intro x hx lx hf p hp
      exact Or.inl (hc x hx lx hf p hp)
    obtain ⟨wa, wc⟩ :=
      ancWalk_main hw href (db.length + 1) (findLoc db a) acc.1 hcur hfl hcl
    have hfst := @ancWalk_fst db (db.length + 1) (findLoc db a) acc.1
    have hm' : ∀ x,
        x ∈ (acc.2 ++ (ancWalk db (db.length + 1) (findLoc db a) acc.1).2) ↔
        x ∈ (ancWalk db (db.length + 1) (findLoc db a) acc.1).1 := by
      intro x
      rw [List.mem_append, hm x, hfst, List.mem_append, List.mem_reverse]
      tauto
    obtain ⟨C, M, A⟩ := ih
      ((ancWalk db (db.length + 1) (findLoc db a) acc.1).1,
        acc.2 ++ (ancWalk db (db.length + 1) (findLoc db a) acc.1).2) wc hm'
    refine ⟨C, M, fun x => ?_⟩
    rw [A x]
    show x ∈ (ancWalk db (db.length + 1) (findLoc db a) acc.1).1 ∨ _ ↔ _
    rw [wa x]
    simp only [List.exists_mem_cons_iff]
    rw [or_assoc]

/-- Membership in `ancestorIds`: exactly the parent chains of the assigned
locations that resolve in the table. -/
theorem ancestorIds_mem {db : List Loc} {u : User} {rank : Nat → Nat}
    (hw : wfRank db rank = true) (href : refIntact db = true)
    (hb : rankBound db rank = true) :
    ∀ x, x ∈ ancestorIds db u ↔
      ∃ a ∈ u.allowed_location_ids, ∃ l, findLoc db a = some l ∧
        UpReach db l.id x := by
  intro x
  obtain ⟨C, M, A⟩ := ancFold_main hw href hb u.allowed_location_ids ([], [])
    (fun y hy => absurd hy (List.not_mem_nil y)) (fun y => by simp)
  rw [ancestorIds, M x, A x]
  simp

theorem upReach_ancestor {db : List Loc} {assigned : List Nat} {i x : Nat}
    (hi : AncestorOfAssigned db assigned i) (h : UpReach db i x) :
    AncestorOfAssigned db assigned x := by
  induction h with
  | refl => exact hi
  | tail j p l _ hf hp ih => exact AncestorOfAssigned.up _ _ _ ih hf hp

/-- The spec-side ancestors set coincides with resolvable parent chains. -/
theorem ancestorOfAssigned_iff {db : List Loc} {assigned : List Nat}
    (has : assigned.all (fun a => (findLoc db a).isSome) = true) :
    ∀ x, AncestorOfAssigned db assigned x ↔
      ∃ a ∈ assigned, ∃ l, findLoc db a = some l ∧ UpReach db l.id x := by
  intro x
  constructor
  · intro h
    induction h with
    | self a ha =>
      obtain ⟨l, hl⟩ := Option.isSome_iff_exists.mp (List.all_eq_true.mp has a ha)
      refine ⟨a, ha, l, hl, ?_⟩
      rw [findLoc_id hl]
      exact UpReach.refl a
    | up i p l _ hf hp ih =>
      obtain ⟨a, ha, l₀, hl₀, hup⟩ := ih
      exact ⟨a, ha, l₀, hl₀, UpReach.tail _ _ _ _ hup hf hp⟩
  · rintro ⟨a, ha, l, hl, hup⟩
    have base : AncestorOfAssigned db assigned l.id := by
      rw [findLoc_id hl]
      exact AncestorOfAssigned.self a ha
    exact upReach_ancestor base hup

/-- Membership in the technical-locations component. -/
theorem technical_mem {db : List Loc} :
    ∀ x, x ∈ technical_location_ids db ↔
      ∃ l ∈ db, l.id = x ∧ (l.usage = "view" ∨ l.usage = "transit" ∨
        l.usage = "inventory" ∨ l.usage ≠ "internal") := by
  intro x
  simp only [technical_location_ids, List.mem_map, List.mem_filter,
    Bool.or_eq_true, beq_iff_eq, Bool.not_eq_true', beq_eq_false_iff_ne]
  constructor
  · rintro ⟨l, ⟨hm, hp⟩, rfl⟩
    exact ⟨l, hm, rfl, by tauto⟩
  · rintro ⟨l, hm, rfl, hp⟩
    exact ⟨l, ⟨hm, by tauto⟩, rfl⟩

/-- Claim C2: For a restricted user, `get_all_location_ids_with_access`
returns, without duplicates, exactly the union of the effective set, the
ancestors of the assigned locations (each assigned location and its whole
parent chain), and the locations whose usage is `view`, `transit`,
`inventory` or any non-`internal` kind — assuming an acyclic,
referentially-intact hierarchy and assigned locations present in the
table. -/
theorem C2_visible_ids_exact (db : List Loc) (u : User) (rank : Nat → Nat)
    (hres : has_stock_restriction u = true)
    (hw : wfRank db rank = true)
    (hb : rankBound db rank = true)
    (href : refIntact db = true)
    (has : u.allowed_location_ids.all (fun a => (findLoc db a).isSome) = true) :
    (∀ x, x ∈ get_all_location_ids_with_access db u ↔
        x ∈ get_effective_location_ids db u ∨
        AncestorOfAssigned db u.allowed_location_ids x ∨
        ∃ l ∈ db, l.id = x ∧ (l.usage = "view" ∨ l.usage = "transit" ∨
          l.usage = "inventory" ∨ l.usage ≠ "internal")) ∧
    (get_all_location_ids_with_access db u).Nodup := by
  constructor
  · intro x
    rw [get_all_location_ids_with_access, hres]
    simp only [Bool.not_true, Bool.false_eq_true, if_false]
    rw [List.mem_dedup, List.mem_append, List.mem_append]
    rw [ancestorIds_mem hw href hb x, ancestorOfAssigned_iff has x,
      technical_mem x, or_assoc]
  · rw [get_all_location_ids_with_access, hres]
    simp only [Bool.not_true, Bool.false_eq_true, if_false]
    exact List.nodup_dedup _

/-- Witness for C2 at `dbW`/`uW` with `rank = id`, evaluated at the
customer location 4 (visible through the technical component). -/
theorem C2_visible_ids_exact_witness :
    (has_stock_restriction uW = true ∧ wfRank dbW (fun i => i) = true ∧
      rankBound dbW (fun i => i) = true ∧ refIntact dbW = true ∧
      uW.allowed_location_ids.all (fun a => (findLoc dbW a).isSome) = true) ∧
    (4 ∈ get_all_location_ids_with_access dbW uW ↔
      4 ∈ get_effective_location_ids dbW uW ∨
      AncestorOfAssigned dbW uW.allowed_location_ids 4 ∨
      ∃ l ∈ dbW, l.id = 4 ∧ (l.usage = "view" ∨ l.usage = "transit" ∨
        l.usage = "inventory" ∨ l.usage ≠ "internal")) :=
  ⟨⟨by decide, by decide, by decide, by decide, by decide⟩,
    (C2_visible_ids_exact dbW uW (fun i => i) (by decide) (by decide)
      (by decide) (by decide) (by decide)).1 4⟩

/-- Claim C3: For every user, every id in the effective set is also in the
visible set returned by `get_all_location_ids_with_access`. -/
theorem C3_effective_subset_visible (db : List Loc) (u : User) :
    ∀ x ∈ get_effective_location_ids db u,
      x ∈ get_all_location_ids_with_access db u := by
  intro x hx
  cases hres : has_stock_restriction u with
  | false =>
    exfalso
    have hguard : (!u.restrict_stock_access || u.allowed_location_ids.isEmpty)
        = true := by
      rw [has_stock_restriction] at hres
      cases hr : u.restrict_stock_access <;>
        cases he : u.allowed_location_ids.isEmpty <;>
          simp [hr, he] at hres ⊢
    rw [get_effective_location_ids, hguard] at hx
    simp at hx
  | true =>
    rw [get_all_location_ids_with_access, hres]
    simp only [Bool.not_true, Bool.false_eq_true, if_false]
    rw [List.mem_dedup]
    exact List.mem_append_left _ (List.mem_append_left _ hx)

/-- Witness for C3: location 2 is effective for `uW` and indeed visible. -/
theorem C3_effective_subset_visible_witness :
    2 ∈ get_effective_location_ids dbW uW ∧
    2 ∈ get_all_location_ids_with_access dbW uW :=
  ⟨by decide, C3_effective_subset_visible dbW uW 2 (by decide)⟩

/-- Claim C4: A user with the flag off or no assigned locations gets empty
effective and visible sets, passes every `check_location_access`, and all
the search/create/write hooks on locations, quants and moves reduce to the
standard platform behaviour. -/
theorem C4_unrestricted_no_filtering (db : List Loc) (u : User)
    (h : u.restrict_stock_access = false ∨ u.allowed_location_ids = []) :
    get_effective_location_ids db u = [] ∧
    get_all_location_ids_with_access db u = [] ∧
    (∀ su lid op, check_location_access su db u lid op = true) ∧
    (∀ su qdb pred, StockQuant_search su db u qdb pred = qdb.filter pred) ∧
    (∀ su pred, StockLocation_search su db u pred = db.filter pred) ∧
    (∀ su op ids sr, StockLocation_check_access_rule su db u op ids sr = sr) ∧
    (∀ su vl, StockQuant_create su db u vl = Except.ok vl) ∧
    (∀ su quants vals, StockQuant_write su db u quants vals = Except.ok ()) ∧
    (∀ su quants, StockQuant_action_apply_inventory su db u quants
      = Except.ok ()) ∧
    (∀ moves, StockMove_check_access_rule db u false moves = Except.ok ()) ∧
    (∀ moves, StockMove_check_access_rule db u true moves
      = Except.error "AccessError") := by
  have hres : has_stock_restriction u = false := by
    rw [has_stock_restriction]
    rcases h with h | h <;> simp [h]
  refine ⟨?_, ?_, ?_, ?_, ?_, ?_, ?_, ?_, ?_, ?_, ?_⟩
  · rw [get_effective_location_ids]
    rcases h with h | h <;> simp [h]
  · rw [get_all_location_ids_with_access, hres]
    simp
  · intro su lid op
    rw [check_location_access, hres]
    simp
  · intro su qdb pred
    rw [StockQuant_search, hres]
    simp
  · intro su pred
    rw [StockLocation_search, hres]
    simp
  · intro su op ids sr
    rw [StockLocation_check_access_rule, hres]
    simp
  · intro su vl
    rw [StockQuant_create, hres]
    simp
  · intro su quants vals
    rw [StockQuant_write, hres]
    simp
  · intro su quants
    rw [StockQuant_action_apply_inventory, hres]
    simp
  · intro moves
    rw [StockMove_check_access_rule]
    simp
  · intro moves
    rw [StockMove_check_access_rule, hres]
    simp

/-- Witness for C4 at the flag-off user `uOff`. -/
theorem C4_unrestricted_no_filtering_witness :
    (uOff.restrict_stock_access = false ∨ uOff.allowed_location_ids = []) ∧
    (get_effective_location_ids dbW uOff = [] ∧
     get_all_location_ids_with_access dbW uOff = [] ∧
     (∀ su lid op, check_location_access su dbW uOff lid op = true) ∧
     (∀ su qdb pred, StockQuant_search su dbW uOff qdb pred = qdb.filter pred) ∧
     (∀ su pred, StockLocation_search su dbW uOff pred = dbW.filter pred) ∧
     (∀ su op ids sr,
       StockLocation_check_access_rule su dbW uOff op ids sr = sr) ∧
     (∀ su vl, StockQuant_create su dbW uOff vl = Except.ok vl) ∧
     (∀ su quants vals,
       StockQuant_write su dbW uOff quants vals = Except.ok ()) ∧
     (∀ su quants, StockQuant_action_apply_inventory su dbW uOff quants
       = Except.ok ()) ∧
     (∀ moves, StockMove_check_access_rule dbW uOff false moves
       = Except.ok ()) ∧
     (∀ moves, StockMove_check_access_rule dbW uOff true moves
       = Except.error "AccessError")) :=
  ⟨Or.inl rfl, C4_unrestricted_no_filtering dbW uOff (Or.inl rfl)⟩

/-- Claim C5: For a restricted user whose standard access rule already denied
the operation, a move with source or destination in the effective set
passes the restriction layer, and a move with neither endpoint in it is
denied with an access error. -/
theorem C5_move_endpoint_rule (db : List Loc) (u : User) (m : Move)
    (hres : has_stock_restriction u = true) :
    (((get_effective_location_ids db u).contains m.location_id ||
        (get_effective_location_ids db u).contains m.location_dest_id) = true →
      StockMove_check_access_rule db u true [m] = Except.ok ()) ∧
    (((get_effective_location_ids db u).contains m.location_id ||
        (get_effective_location_ids db u).contains m.location_dest_id) = false →
      StockMove_check_access_rule db u true [m] = Except.error
        ("No tienes permiso para procesar movimientos que no involucren tus ubicaciones permitidas.\nMovimiento: "
          ++ locName db m.location_id ++ " -> " ++ locName db m.location_dest_id)) := by
  constructor
  · intro hin
    have hin' : m.location_id ∈ get_effective_location_ids db u ∨
        m.location_dest_id ∈ get_effective_location_ids db u := by
      simpa using hin
    rw [StockMove_check_access_rule]
    rcases hin' with h | h <;> simp [hres, h]
  · intro hout
    have hout' : m.location_id ∉ get_effective_location_ids db u ∧
        m.location_dest_id ∉ get_effective_location_ids db u := by
      simpa using hout
    rw [StockMove_check_access_rule]
    simp [hres, hout'.1, hout'.2]

/-- Witness for C5 at the move `4 → 3` of `dbW`, whose destination is in
the effective set of `uW`. -/
theorem C5_move_endpoint_rule_witness :
    has_stock_restriction uW = true ∧
    (((get_effective_location_ids dbW uW).contains 4 ||
        (get_effective_location_ids dbW uW).contains 3) = true →
      StockMove_check_access_rule dbW uW true [⟨4, 3⟩] = Except.ok ()) ∧
    (((get_effective_location_ids dbW uW).contains 4 ||
        (get_effective_location_ids dbW uW).contains 3) = false →
      StockMove_check_access_rule dbW uW true [⟨4, 3⟩] = Except.error
        ("No tienes permiso para procesar movimientos que no involucren tus ubicaciones permitidas.\nMovimiento: "
          ++ locName dbW 4 ++ " -> " ++ locName dbW 3)) :=
  ⟨by decide, C5_move_endpoint_rule dbW uW ⟨4, 3⟩ (by decide)⟩

/-- Claim C6: For a restricted non-superuser, the write-class operations
(quant creation towards a location, quant write both as destination check
and as modification of existing quants, inventory application, and
`check_location_access` for `write`) succeed exactly on the effective
locations and are denied outside them. -/
theorem C6_write_class_ops (db : List Loc) (u : User)
    (hres : has_stock_restriction u = true) :
    (∀ n, n ∈ get_effective_location_ids db u →
      StockQuant_create false db u [⟨some n⟩] = Except.ok [⟨some n⟩]) ∧
    (∀ n, n ≠ 0 → n ∉ get_effective_location_ids db u →
      StockQuant_create false db u [⟨some n⟩] = Except.error
        ("Restricción: No puedes crear inventario en la ubicación "
          ++ locDisplayName db n)) ∧
    (∀ q : Quant, q.location_id ∈ get_effective_location_ids db u →
      StockQuant_write false db u [q] ⟨none⟩ = Except.ok ()) ∧
    (∀ q : Quant, q.location_id ∉ get_effective_location_ids db u →
      StockQuant_write false db u [q] ⟨none⟩ = Except.error
        ("Restricción: No tienes permiso para modificar inventario en "
          ++ locDisplayName db q.location_id)) ∧
    (∀ n, n ∉ get_effective_location_ids db u → ∀ quants,
      StockQuant_write false db u quants ⟨some n⟩ = Except.error
        "Restricción: No puedes mover inventario hacia una ubicación no permitida.") ∧
    (∀ n, n ∈ get_effective_location_ids db u →
      ∀ q : Quant, q.location_id ∈ get_effective_location_ids db u →
      StockQuant_write false db u [q] ⟨some n⟩ = Except.ok ()) ∧
    (∀ q : Quant, q.location_id ∈ get_effective_location_ids db u →
      StockQuant_action_apply_inventory false db u [q] = Except.ok ()) ∧
    (∀ q : Quant, q.location_id ∉ get_effective_location_ids db u →
      StockQuant_action_apply_inventory false db u [q] = Except.error
        ("No tienes permiso para ajustar el inventario en: "
          ++ locDisplayName db q.location_id)) ∧
    (∀ n, check_location_access false db u n "write"
      = (get_effective_location_ids db u).contains n) := by
  refine ⟨?_, ?_, ?_, ?_, ?_, ?_, ?_, ?_, ?_⟩
  · intro n hn
    rw [StockQuant_create]
    simp [hres, hn]
  · intro n hn0 hn
    rw [StockQuant_create]
    simp [hres, hn, truthyLoc, hn0]
  · intro q hq
    rw [StockQuant_write]
    simp [hres, quantsLocCheck, hq]
  · intro q hq
    rw [StockQuant_write]
    simp [hres, quantsLocCheck, hq]
  · intro n hn quants
    rw [StockQuant_write]
    simp [hres, hn]
  · intro n hn q hq
    rw [StockQuant_write]
    simp [hres, quantsLocCheck, hn, hq]
  · intro q hq
    rw [StockQuant_action_apply_inventory]
    simp [hres, quantsLocCheck, hq]
  · intro q hq
    rw [StockQuant_action_apply_inventory]
    simp [hres, quantsLocCheck, hq]
  · intro n
    rw [check_location_access, hres]
    simp

/-- Witness for C6 at `dbW`/`uW`. -/
theorem C6_write_class_ops_witness :
    has_stock_restriction uW = true ∧
    (3 ∈ get_effective_location_ids dbW uW ∧
      StockQuant_create false dbW uW [⟨some 3⟩] = Except.ok [⟨some 3⟩]) ∧
    (4 ∉ get_effective_location_ids dbW uW ∧
      check_location_access false dbW uW 4 "write"
        = (get_effective_location_ids dbW uW).contains 4) :=
  ⟨by decide,
    ⟨by decide, (C6_write_class_ops dbW uW (by decide)).1 3 (by decide)⟩,
    ⟨by decide,
      (C6_write_class_ops dbW uW (by decide)).2.2.2.2.2.2.2.2 4⟩⟩

/-- Claim C9: For a restricted non-superuser, quant creation whose values
carry no `location_id` key or a falsy (zero) one is not blocked by the
restriction layer and is delegated to the standard behaviour. -/
theorem C9_create_falsy_location_unchecked (db : List Loc) (u : User)
    (vl : List QuantVals)
    (hres : has_stock_restriction u = true)
    (hfalsy : ∀ v ∈ vl, v.location_id = none ∨ v.location_id = some 0) :
    StockQuant_create false db u vl = Except.ok vl := by
  have hnone : vl.find? (fun v => truthyLoc v.location_id &&
      !decide (v.location_id.getD 0 ∈ get_effective_location_ids db u))
      = none := by
    rw [List.find?_eq_none]
    intro v hv
    rcases hfalsy v hv with h | h <;> simp [truthyLoc, h]
  rw [StockQuant_create]
  simp [hres, hnone]

/-- Witness for C9: values lists with a missing and with a zero
`location_id` pass the restricted create of `uW` untouched. -/
theorem C9_create_falsy_location_unchecked_witness :
    (has_stock_restriction uW = true ∧
      ∀ v ∈ [(⟨none⟩ : QuantVals), ⟨some 0⟩],
        v.location_id = none ∨ v.location_id = some 0) ∧
    StockQuant_create false dbW uW [⟨none⟩, ⟨some 0⟩]
      = Except.ok [⟨none⟩, ⟨some 0⟩] :=
  ⟨⟨by decide, by decide⟩,
    C9_create_falsy_location_unchecked dbW uW [⟨none⟩, ⟨some 0⟩]
      (by decide) (by decide)⟩

/-- Claim C10: For a restricted non-superuser whose effective set is empty,
the quant search domain is conjoined with `('id', '=', 0)`, and since no
record has id 0, the search returns no records. -/
theorem C10_empty_effective_blocks_search (db : List Loc) (u : User)
    (qdb : List Quant) (pred : Quant → Bool)
    (hres : has_stock_restriction u = true)
    (heff : get_effective_location_ids db u = [])
    (hids : ∀ q ∈ qdb, q.id ≠ 0) :
    StockQuant_search false db u qdb pred
      = qdb.filter (fun q => pred q && q.id == 0) ∧
    StockQuant_search false db u qdb pred = [] := by
  have h1 : StockQuant_search false db u qdb pred
      = qdb.filter (fun q => pred q && q.id == 0) := by
    rw [StockQuant_search]
    simp [hres, heff]
  refine ⟨h1, ?_⟩
  rw [h1, List.filter_eq_nil_iff]
  intro q hq
  simp [hids q hq]

/-- Witness for C10: the user assigned only the inventory-usage location 5
has an empty effective set, and a quant search over a one-quant table
returns nothing. -/
theorem C10_empty_effective_blocks_search_witness :
    (has_stock_restriction uEmptyEff = true ∧
      get_effective_location_ids dbW uEmptyEff = [] ∧
      ∀ q ∈ [(⟨7, 3⟩ : Quant)], q.id ≠ 0) ∧
    (StockQuant_search false dbW uEmptyEff [⟨7, 3⟩] (fun _ => true)
      = List.filter (fun q => true && q.id == 0) [⟨7, 3⟩] ∧
     StockQuant_search false dbW uEmptyEff [⟨7, 3⟩] (fun _ => true) = []) :=
  ⟨⟨by decide, by decide, by decide⟩,
    C10_empty_effective_blocks_search dbW uEmptyEff [⟨7, 3⟩] (fun _ => true)
      (by decide) (by decide) (by decide)⟩

theorem mentions_of_parts {msg s : String} (pre post : List Char)
    (h : msg.toList = pre ++ s.toList ++ post) : Mentions msg s :=
  ⟨pre, post, h.symm⟩

theorem quantsLocCheck_error {quants : List Quant} {allowed : List Nat}
    {mkMsg : Nat → String} {msg : String}
    (h : quantsLocCheck quants allowed mkMsg = Except.error msg) :
    ∃ q ∈ quants, msg = mkMsg q.location_id := by
  rw [quantsLocCheck] at h
  cases hf : quants.find? (fun q => !(allowed.contains q.location_id)) with
  | none =>
    simp only [hf] at h
    exact Except.noConfusion h
  | some q =>
    simp only [hf] at h
    exact ⟨q, List.mem_of_find?_eq_some hf, (Except.error.inj h).symm⟩

set_option maxRecDepth 8192 in
/-- Claim C7 counterexample: The destination check of the restricted quant
`write` denies moving stock towards location 4 with a fixed message that
names neither the location's display name nor its short name. -/
theorem C7_write_message_counterexample :
    StockQuant_write false dbW uW [] ⟨some 4⟩ = Except.error
      "Restricción: No puedes mover inventario hacia una ubicación no permitida." ∧
    locDisplayName dbW 4 = "Partners/Customers" ∧
    locName dbW 4 = "Customers" ∧
    ¬ Mentions
      "Restricción: No puedes mover inventario hacia una ubicación no permitida."
      "Partners/Customers" ∧
    ¬ Mentions
      "Restricción: No puedes mover inventario hacia una ubicación no permitida."
      "Customers" :=
  ⟨rfl, rfl, rfl, by decide, by decide⟩

/-- Claim C7 amended: Every access denial of the restriction layer names the
offending location(s) in its message — the quant-create check, the
existing-quant checks of `write` and `action_apply_inventory`, the move
endpoint check (naming both endpoints), and the sale-order confirmation
(naming the offending warehouse) — except the destination check of the
quant `write`, whose denial is the fixed location-free message. -/
theorem C7_denial_messages (db : List Loc) (whdb : List Warehouse) (u : User)
    (hres : has_stock_restriction u = true) :
    (∀ vl msg, StockQuant_create false db u vl = Except.error msg →
      ∃ v ∈ vl, ∃ n, v.location_id = some n ∧
        Mentions msg (locDisplayName db n)) ∧
    (∀ quants vals msg,
      StockQuant_write false db u quants vals = Except.error msg →
      msg = "Restricción: No puedes mover inventario hacia una ubicación no permitida." ∨
      ∃ q ∈ quants, Mentions msg (locDisplayName db q.location_id)) ∧
    (∀ quants msg,
      StockQuant_action_apply_inventory false db u quants = Except.error msg →
      ∃ q ∈ quants, Mentions msg (locDisplayName db q.location_id)) ∧
    (∀ moves msg,
      StockMove_check_access_rule db u true moves = Except.error msg →
      ∃ m ∈ moves, Mentions msg (locName db m.location_id) ∧
        Mentions msg (locName db m.location_dest_id)) ∧
    (∀ wid msg, SaleOrder_action_confirm false whdb u wid = Except.error msg →
      Mentions msg (whName whdb wid)) := by
  refine ⟨?_, ?_, ?_, ?_, ?_⟩
  · intro vl msg herr
    rw [StockQuant_create] at herr
    simp only [hres, Bool.not_false, Bool.true_and, if_true] at herr
    cases hf : vl.find? (fun v => truthyLoc v.location_id &&
        !((get_effective_location_ids db u).contains (v.location_id.getD 0))) with
    | none =>
      simp only [hf] at herr
      exact Except.noConfusion herr
    | some v =>
      simp only [hf] at herr
      have hp := List.find?_some hf
      cases hvl : v.location_id with
      | none => rw [hvl] at hp; simp [truthyLoc] at hp
      | some n =>
        refine ⟨v, List.mem_of_find?_eq_some hf, n, hvl, ?_⟩
        refine mentions_of_parts
          ("Restricción: No puedes crear inventario en la ubicación ").toList
          [] ?_
        rw [← Except.error.inj herr, hvl]
        simp
  · intro quants vals msg herr
    rw [StockQuant_write] at herr
    simp only [hres, Bool.not_false, Bool.true_and, if_true] at herr
    cases hvl : vals.location_id with
    | some n =>
      rw [hvl] at herr
      dsimp only at herr
      by_cases hn : n ∈ get_effective_location_ids db u
      · rw [if_neg (by simp [hn])] at herr
        obtain ⟨q, hq, rfl⟩ := quantsLocCheck_error herr
        refine Or.inr ⟨q, hq, mentions_of_parts
          ("Restricción: No tienes permiso para modificar inventario en ").toList
          [] ?_⟩
        simp
      · rw [if_pos (by simp [hn])] at herr
        exact Or.inl (Except.error.inj herr).symm
    | none =>
      rw [hvl] at herr
      dsimp only at herr
      obtain ⟨q, hq, rfl⟩ := quantsLocCheck_error herr
      refine Or.inr ⟨q, hq, mentions_of_parts
        ("Restricción: No tienes permiso para modificar inventario en ").toList
        [] ?_⟩
      simp
  · intro quants msg herr
    rw [StockQuant_action_apply_inventory] at herr
    simp only [hres, Bool.not_false, Bool.true_and, if_true] at herr
    obtain ⟨q, hq, rfl⟩ := quantsLocCheck_error herr
    refine ⟨q, hq, mentions_of_parts
      ("No tienes permiso para ajustar el inventario en: ").toList [] ?_⟩
    simp
  · intro moves msg herr
    rw [StockMove_check_access_rule] at herr
    simp only [hres, Bool.not_true, Bool.false_eq_true, if_false, if_true] at herr
    cases hf : moves.find? (fun m =>
        !((get_effective_location_ids db u).contains m.location_id ||
          (get_effective_location_ids db u).contains m.location_dest_id)) with
    | none =>
      simp only [hf] at herr
      exact Except.noConfusion herr
    | some m =>
      simp only [hf] at herr
      obtain rfl := (Except.error.inj herr).symm
      refine ⟨m, List.mem_of_find?_eq_some hf, ?_, ?_⟩
      · refine mentions_of_parts
          ("No tienes permiso para procesar movimientos que no involucren tus ubicaciones permitidas.\nMovimiento: ").toList
          ((" -> ").toList ++ (locName db m.location_dest_id).toList) ?_
        simp
      · refine mentions_of_parts
          (("No tienes permiso para procesar movimientos que no involucren tus ubicaciones permitidas.\nMovimiento: ").toList
            ++ (locName db m.location_id).toList ++ (" -> ").toList)
          [] ?_
        simp
  · intro wid msg herr
    rw [SaleOrder_action_confirm] at herr
    simp only [hres, Bool.not_false, Bool.true_and, if_true] at herr
    by_cases hw : u.allowed_warehouse_ids.isEmpty
    · rw [if_neg (by simp [hw])] at herr
      exact absurd herr (by simp)
    · rw [if_pos (by simp [hw])] at herr
      by_cases hin : wid ∈ u.allowed_warehouse_ids
      · rw [if_neg (by simp [hin])] at herr
        exact absurd herr (by simp)
      · rw [if_pos (by simp [hin])] at herr
        obtain rfl := (Except.error.inj herr).symm
        refine mentions_of_parts
          ("Error de Seguridad: Intentas confirmar una venta desde el almacén '").toList
          (("', pero solo tienes acceso a: ").toList
            ++ (joinComma (u.allowed_warehouse_ids.map (whName whdb))).toList
            ++ (".").toList) ?_
        simp

/-- Witness for the amended C7 at `dbW`/`whW`/`uW`. -/
theorem C7_denial_messages_witness :
    has_stock_restriction uW = true ∧
    (∀ vl msg, StockQuant_create false dbW uW vl = Except.error msg →
      ∃ v ∈ vl, ∃ n, v.location_id = some n ∧
        Mentions msg (locDisplayName dbW n)) ∧
    (∀ wid msg, SaleOrder_action_confirm false whW uW wid = Except.error msg →
      Mentions msg (whName whW wid)) :=
  ⟨by decide, (C7_denial_messages dbW whW uW (by decide)).1,
    (C7_denial_messages dbW whW uW (by decide)).2.2.2.2⟩

/-- Claim C8 counterexample: Two users differing only in their allowed
warehouses behave differently beyond sale-order defaulting: `uW` confirms
an order on warehouse 10 while `uW'` is denied at confirmation time. -/
theorem C8_warehouses_counterexample :
    uW.restrict_stock_access = uW'.restrict_stock_access ∧
    uW.allowed_location_ids = uW'.allowed_location_ids ∧
    uW.allowed_warehouse_ids ≠ uW'.allowed_warehouse_ids ∧
    SaleOrder_action_confirm false whW uW 10 = Except.ok () ∧
    isOkE (SaleOrder_action_confirm false whW uW' 10) = false :=
  ⟨rfl, rfl, by decide, rfl, rfl⟩

/-- Claim C8 amended: The allowed warehouses influence only the sale-order
flow: the location sets, the location/quant searches, the access rules and
every stock hook are invariant under changes to `allowed_warehouse_ids`
(besides defaulting, the confirmation check also reads them). -/
theorem C8_warehouse_invariance (db : List Loc) (r : Bool)
    (la wa wa' : List Nat) :
    get_effective_location_ids db ⟨r, la, wa⟩
      = get_effective_location_ids db ⟨r, la, wa'⟩ ∧
    get_all_location_ids_with_access db ⟨r, la, wa⟩
      = get_all_location_ids_with_access db ⟨r, la, wa'⟩ ∧
    (∀ su lid op, check_location_access su db ⟨r, la, wa⟩ lid op
      = check_location_access su db ⟨r, la, wa'⟩ lid op) ∧
    (∀ su qdb pred, StockQuant_search su db ⟨r, la, wa⟩ qdb pred
      = StockQuant_search su db ⟨r, la, wa'⟩ qdb pred) ∧
    (∀ su pred, StockLocation_search su db ⟨r, la, wa⟩ pred
      = StockLocation_search su db ⟨r, la, wa'⟩ pred) ∧
    (∀ su op ids sr,
      StockLocation_check_access_rule su db ⟨r, la, wa⟩ op ids sr
        = StockLocation_check_access_rule su db ⟨r, la, wa'⟩ op ids sr) ∧
    (∀ su vl, StockQuant_create su db ⟨r, la, wa⟩ vl
      = StockQuant_create su db ⟨r, la, wa'⟩ vl) ∧
    (∀ su quants vals, StockQuant_write su db ⟨r, la, wa⟩ quants vals
      = StockQuant_write su db ⟨r, la, wa'⟩ quants vals) ∧
    (∀ su quants, StockQuant_action_apply_inventory su db ⟨r, la, wa⟩ quants
      = StockQuant_action_apply_inventory su db ⟨r, la, wa'⟩ quants) ∧
    (∀ sr moves, StockMove_check_access_rule db ⟨r, la, wa⟩ sr moves
      = StockMove_check_access_rule db ⟨r, la, wa'⟩ sr moves) :=
  ⟨rfl, rfl, fun _ _ _ => rfl, fun _ _ _ => rfl, fun _ _ => rfl,
    fun _ _ _ _ => rfl, fun _ _ => rfl, fun _ _ _ => rfl, fun _ _ => rfl,
    fun _ _ => rfl⟩

end Restricion
